import Mathlib

/-!
Verification development for the rgdrive daemon (client `rgdrive`, daemon
`rgdrived`, shared `lib.rs`).

Paths, remote drive urls and raw payload text are modelled as lists of
characters (`Str`); wire payloads as lists of byte values (`Bytes`).

The repository contains two revisions of the daemon core:
* the `Tracker` registry of `src/bin/lib.rs` (a `Vec<TrackedFile>` persisted
  with bincode, the durable file opened in create-new mode), and
* the `TrackedFiles` registry of `src/bin/rgdrived.rs` (a
  `HashMap<WatchDescriptor, String>` whose values are `"path,url"` strings,
  persisted as JSON with truncate mode), together with the text-protocol
  command dispatcher `handle_stream` and the watch loop `inotify_listen`.
Both are embedded below.  The inotify facility itself is the OS; it is
modelled as a table of (watch descriptor, path) pairs with an environment
oracle `env : Str → Bool` deciding whether watching a path succeeds, fresh
descriptors for unwatched paths and the existing descriptor for an already
watched path, matching inotify's documented behaviour.
-/

abbrev Str := List Char

abbrev Bytes := List Nat

deriving instance DecidableEq for Except

/-- Errors surfaced by the modelled OS interfaces (`std::io::Error` values). -/
inductive IoErr where
  | alreadyExists
  | watchFailed
  | invalidWd
deriving DecidableEq

/-- Model of an `inotify::Inotify` instance: the set of live watches as
(watch descriptor, path) pairs plus a fresh-descriptor counter. -/
structure Inotify where
  nextWd : Nat
  watches : List (Nat × Str)
deriving DecidableEq

def Inotify.init : Inotify := ⟨1, []⟩

/-- `Inotify::add_watch`: fails when the environment refuses the path
(e.g. it does not exist); returns the existing descriptor when the path is
already watched, otherwise a fresh descriptor. -/
def Inotify.add_watch (env : Str → Bool) (i : Inotify) (p : Str) :
    Except IoErr (Nat × Inotify) :=
  if env p then
    match i.watches.find? (fun w => w.2 == p) with
    | some w => .ok (w.1, i)
    | none => .ok (i.nextWd, ⟨i.nextWd + 1, (i.nextWd, p) :: i.watches⟩)
  else .error .watchFailed

/-- Whether descriptor `w` is live in the inotify instance. -/
def Inotify.watchedWd (i : Inotify) (w : Nat) : Bool :=
  i.watches.any (fun e => e.1 == w)

/-- `Inotify::rm_watch`: removes a live watch, errors (EINVAL) on a dead
descriptor. -/
def Inotify.rm_watch (i : Inotify) (w : Nat) : Except IoErr Inotify :=
  if i.watchedWd w then .ok ⟨i.nextWd, i.watches.filter (fun e => e.1 != w)⟩
  else .error .invalidWd

/-- `TrackedFile` of `src/bin/lib.rs` (the spec's TrackedPath): the `wd`
field carries `#[serde(skip)]`, so it is never persisted. -/
structure TrackedFile where
  drive_url : Str
  path : Str
  wd : Option Nat
deriving DecidableEq

/-- State of the durable registry file used by `Tracker`: missing, present
but undeserializable, or a serialized list of (drive_url, path) pairs (the
`wd` field is skipped by serde). -/
inductive FileState where
  | absent
  | corrupt
  | valid (entries : List (Str × Str))
deriving DecidableEq

/-- `Tracker` of `src/bin/lib.rs`: the inotify instance plus the in-memory
list of tracked files.  The durable file is passed explicitly as a
`FileState`. -/
structure Tracker where
  inotify : Inotify
  tracked_files : List TrackedFile
deriving DecidableEq

/-- The serialized form of the registry: its (drive_url, path) pairs,
watch handles excluded. -/
def Tracker.pairs (t : Tracker) : List (Str × Str) :=
  t.tracked_files.map (fun tf => (tf.drive_url, tf.path))

/-- Number of tracked entries whose path is `p`. -/
def countPath (t : Tracker) (p : Str) : Nat :=
  (t.tracked_files.filter (fun tf => tf.path == p)).length

/-- Loop body of `Tracker::init`: attempt to watch the stored path; on
success push the entry with the fresh descriptor, on failure log and drop
the entry (`continue`). -/
def initStep (env : Str → Bool) (t : Tracker) (e : Str × Str) : Tracker :=
  match t.inotify.add_watch env e.2 with
  | .ok (wd, ino) => ⟨ino, t.tracked_files ++ [⟨e.1, e.2, some wd⟩]⟩
  | .error _ => t

/-- `Tracker::init` (src/bin/lib.rs:159): missing or corrupt durable file
yields the empty tracker; otherwise each stored pair is re-watched and
pushed, registration failures being dropped. -/
def Tracker.init (env : Str → Bool) (store : FileState) : Tracker :=
  match store with
  | .valid entries => entries.foldl (initStep env) ⟨Inotify.init, []⟩
  | _ => ⟨Inotify.init, []⟩

/-- `Tracker::save` (src/bin/lib.rs:212): opens the durable file with
`create_new(true)`, which errors with AlreadyExists whenever the file is
already present; on the absent file it writes the serialized entry list. -/
def Tracker.save (t : Tracker) (store : FileState) : Except IoErr FileState :=
  match store with
  | .absent => .ok (.valid t.pairs)
  | _ => .error .alreadyExists

/-- `Tracker::add_path` (src/bin/lib.rs:226): no-op `Ok` when the path is
already tracked; otherwise register a watch (failure is returned and
nothing is added), push the entry, then `save`.  On a save failure the
entry stays in memory and the error is returned. -/
def Tracker.add_path (env : Str → Bool) (t : Tracker) (store : FileState) (p u : Str) :
    Except IoErr Unit × Tracker × FileState :=
  if t.tracked_files.any (fun tf => tf.path == p) then
    (.ok (), t, store)
  else
    match t.inotify.add_watch env p with
    | .error e => (.error e, t, store)
    | .ok (wd, ino) =>
      let t1 : Tracker := ⟨ino, t.tracked_files ++ [⟨u, p, some wd⟩]⟩
      match t1.save store with
      | .ok store1 => (.ok (), t1, store1)
      | .error e => (.error e, t1, store)

/-- Drain loop of `Tracker::remove_path`: matching entries have their watch
removed (an `rm_watch` failure propagates with `?`, at which point the
drained vector is dropped and `tracked_files` is left empty), non-matching
entries are collected. -/
def removeLoop (ino : Inotify) (acc : List TrackedFile) (rest : List TrackedFile) (p : Str) :
    Except (IoErr × Inotify) (Inotify × List TrackedFile) :=
  match rest with
  | [] => .ok (ino, acc)
  | tf :: rs =>
    if tf.path == p then
      match tf.wd with
      | some w =>
        match ino.rm_watch w with
        | .ok ino1 => removeLoop ino1 acc rs p
        | .error e => .error (e, ino)
      | none => removeLoop ino acc rs p
    else removeLoop ino (acc ++ [tf]) rs p

/-- `Tracker::remove_path` (src/bin/lib.rs:257).  Note: it does not call
`save`. -/
def Tracker.remove_path (t : Tracker) (p : Str) : Except IoErr Unit × Tracker :=
  match removeLoop t.inotify [] t.tracked_files p with
  | .ok (ino, tfs) => (.ok (), ⟨ino, tfs⟩)
  | .error (e, ino) => (.error e, ⟨ino, []⟩)

/-- Every in-memory entry carries a populated watch descriptor. -/
@[reducible] def AllSome (t : Tracker) : Prop :=
  ∀ tf ∈ t.tracked_files, tf.wd.isSome = true

/-- `TrackedFiles` of `src/bin/rgdrived.rs`: a map from watch descriptor to
the `"path,url"` string, modelled as an association list with distinct
keys. -/
structure TrackedFiles where
  map : List (Nat × Str)
deriving DecidableEq

/-- `format!("{},{}", path, url)` used by `TrackedFiles::add_path`. -/
def fmtEntry (p u : Str) : Str := p ++ ',' :: u

/-- The values of the map, i.e. what `write_saved_inotify_events`
serializes. -/
def mapValues (m : List (Nat × Str)) : List Str := m.map (fun e => e.2)

/-- `HashMap::insert`: replace the value under an existing key, otherwise
add the binding. -/
def insertAssoc (m : List (Nat × Str)) (k : Nat) (v : Str) : List (Nat × Str) :=
  if m.any (fun e => e.1 == k) then m.map (fun e => if e.1 == k then (k, v) else e)
  else m ++ [(k, v)]

/-- Daemon-side shared state of `rgdrived.rs`: inotify instance, tracked
files map and the contents of the durable JSON config file (the list of
serialized map values). -/
structure OldState where
  ino : Inotify
  tf : TrackedFiles
  store : List Str
deriving DecidableEq

/-- `write_saved_inotify_events` (src/bin/rgdrived.rs:141): truncates the
config file and rewrites it with the current map values. -/
def writeSaved (st : OldState) : OldState :=
  { st with store := mapValues st.tf.map }

/-- `TrackedFiles::add_path` (src/bin/rgdrived.rs:318): watch the path (on
failure log and return without touching anything), insert the formatted
entry under the returned descriptor, then persist. -/
def oldAddPath (env : Str → Bool) (st : OldState) (p u : Str) : OldState :=
  match st.ino.add_watch env p with
  | .ok (wd, ino1) =>
    writeSaved { st with ino := ino1, tf := ⟨insertAssoc st.tf.map wd (fmtEntry p u)⟩ }
  | .error _ => st

/-- `str::contains`: `strContains needle hay` is true when `needle` occurs
as a contiguous substring of `hay`. -/
def strContains (needle : Str) : Str → Bool
  | [] => needle.isEmpty
  | c :: rest => needle.isPrefixOf (c :: rest) || strContains needle rest

/-- Drain loop of `TrackedFiles::remove_path`: an entry is removed when its
value CONTAINS the requested path as a substring; the `rm_watch` result is
`unwrap`ped, so a failure panics (modelled as `none`). -/
def oldRemoveLoop (n : Inotify) (keep : List (Nat × Str)) (rest : List (Nat × Str)) (p : Str) :
    Option (Inotify × List (Nat × Str)) :=
  match rest with
  | [] => some (n, keep)
  | e :: rs =>
    if strContains p e.2 then
      match n.rm_watch e.1 with
      | .ok n1 => oldRemoveLoop n1 keep rs p
      | .error _ => none
    else oldRemoveLoop n (keep ++ [e]) rs p

/-- `TrackedFiles::remove_path` (src/bin/rgdrived.rs:344): drain, keep the
non-matching bindings, then persist. -/
def oldRemovePath (st : OldState) (p : Str) : Option OldState :=
  match oldRemoveLoop st.ino [] st.tf.map p with
  | some (n1, m1) => some (writeSaved { st with ino := n1, tf := ⟨m1⟩ })
  | none => none

/-- A filesystem object as seen by the push arm: a regular file or a
directory with its immediate children. -/
inductive FsEntry where
  | file (p : Str)
  | dir (p : Str) (children : List FsEntry)

def FsEntry.path : FsEntry → Str
  | .file p => p
  | .dir p _ => p

def FsEntry.isDirB : FsEntry → Bool
  | .dir _ _ => true
  | .file _ => false

/-- Observable side effects of one dispatched command: remote calls made
(arguments recorded in order), responses written back on the stream, and
whether the daemon exited. -/
structure Effects where
  uploads : List Str
  downloads : List (Str × Str)
  updates : List (Str × Str)
  resps : List Str
  exited : Bool
deriving DecidableEq

def Effects.silent : Effects := ⟨[], [], [], [], false⟩

/-- Directory branch of the push arm (src/bin/rgdrived.rs:69): iterate the
immediate `read_dir` children, attempt `upload_file` on each child path,
`add_path` the successes, log and skip the failures.  There is no
recursion into subdirectories.  `upl` is the Drive client's upload
operation: `some url` on success. -/
def pushChildren (env : Str → Bool) (upl : Str → Option Str) :
    OldState → List FsEntry → OldState × List Str
  | st, [] => (st, [])
  | st, c :: cs =>
    match upl c.path with
    | some url =>
      let r := pushChildren env upl (oldAddPath env st c.path url) cs
      (r.1, c.path :: r.2)
    | none =>
      let r := pushChildren env upl st cs
      (r.1, c.path :: r.2)

/-- The push arm of `handle_stream` (src/bin/rgdrived.rs:63): a directory
is handled child by child; a single file is uploaded and registered, an
upload failure just returns.  No response is ever written. -/
def pushArm (env : Str → Bool) (upl : Str → Option Str) (st : OldState) (e : FsEntry) :
    OldState × Effects :=
  match e with
  | .dir _ children =>
    let r := pushChildren env upl st children
    (r.1, { Effects.silent with uploads := r.2 })
  | .file p =>
    match upl p with
    | some url => (oldAddPath env st p url, { Effects.silent with uploads := [p] })
    | none => (st, { Effects.silent with uploads := [p] })

/-- The pull arm of `handle_stream` (src/bin/rgdrived.rs:95): attempt the
download; on success register the returned local path against the drive
url, on failure log and return.  `dl` is the Drive client's download
operation. -/
def pullArm (env : Str → Bool) (dl : Str → Str → Option Str) (st : OldState) (url dest : Str) :
    OldState × Effects :=
  match dl url dest with
  | some lp => (oldAddPath env st lp url, { Effects.silent with downloads := [(url, dest)] })
  | none => (st, { Effects.silent with downloads := [(url, dest)] })

/-- `str::split` on a single separator character. -/
def splitSepAux (sep : Char) : List Char → List Char → List Str
  | cur, [] => [cur.reverse]
  | cur, c :: cs =>
    if c == sep then cur.reverse :: splitSepAux sep [] cs
    else splitSepAux sep (c :: cur) cs

def splitSep (sep : Char) (s : Str) : List Str := splitSepAux sep [] s

def kwQuit : Str := ['q', 'u', 'i', 't']
def kwPush : Str := ['p', 'u', 's', 'h']
def kwPull : Str := ['p', 'u', 'l', 'l']
def kwSync : Str := ['s', 'y', 'n', 'c']
def kwUnsync : Str := ['u', 'n', 's', 'y', 'n', 'c']

/-- `handle_stream` (src/bin/rgdrived.rs:41): an empty read returns at
once; otherwise the text is split on `>` and dispatched on its first
field.  `fs` resolves a path to the filesystem object the push arm
inspects.  The result is `none` when the handler panics (the `unwrap` in
the unsync arm). -/
def handleStream (env : Str → Bool) (upl : Str → Option Str) (dl : Str → Str → Option Str)
    (fs : Str → FsEntry) (text : Str) (st : OldState) : Option (OldState × Effects) :=
  if text.isEmpty then some (st, Effects.silent)
  else
    let cmd := splitSep '>' text
    let c0 := cmd.headD []
    let a1 := cmd.getD 1 []
    let a2 := cmd.getD 2 []
    if c0 == kwQuit then some (st, { Effects.silent with exited := true })
    else if c0 == kwPush then some (pushArm env upl st (fs a1))
    else if c0 == kwPull then some (pullArm env dl st a1 a2)
    else if c0 == kwSync then some (oldAddPath env st a1 a2, Effects.silent)
    else if c0 == kwUnsync then
      match oldRemovePath st a1 with
      | some st1 => some (st1, Effects.silent)
      | none => none
    else some (st, Effects.silent)

/-- Mask of a fired inotify event as matched by `inotify_listen`. -/
inductive EventMask where
  | modify
  | delete
  | other
deriving DecidableEq

structure InoEvent where
  wd : Nat
  mask : EventMask
deriving DecidableEq

/-- Result of handling one fired event: the `update_file` calls made (local
path, drive url), the map afterwards, and whether the unmatched-descriptor
error was logged. -/
structure WatchStep where
  updates : List (Str × Str)
  map : List (Nat × Str)
  unmatchedLogged : Bool
deriving DecidableEq

/-- `HashMap::get` on the tracked files map. -/
def lookupWd (m : List (Nat × Str)) (w : Nat) : Option Str :=
  (m.find? (fun e => e.1 == w)).map (fun e => e.2)

/-- Per-event body of `inotify_listen` (src/bin/rgdrived.rs:190): on a
modify event the descriptor is resolved in the map; a hit splits the
stored value on commas and calls `update_file(path[0], path[1])` (success
or failure is only logged, the map is untouched either way); a miss logs
and continues.  Other masks do nothing. -/
def processEvent (m : List (Nat × Str)) (e : InoEvent) : WatchStep :=
  match e.mask with
  | .modify =>
    match lookupWd m e.wd with
    | some s =>
      let parts := splitSep ',' s
      ⟨[(parts.getD 0 [], parts.getD 1 [])], m, false⟩
    | none => ⟨[], m, true⟩
  | _ => ⟨[], m, false⟩

/-- What `handle_pull` (src/bin/rgdrive.rs:245) observes about the
destination path: `Path::is_file`, `Path::exists`, whether `extension()`
is `Some`, and `Path::is_dir`. -/
structure DestInfo where
  isFile : Bool
  exi : Bool
  hasExt : Bool
  isDir : Bool
deriving DecidableEq

/-- Outcome of the client-side pull validation: an error printed locally
(nothing sent to the daemon) or the `pull>url>dest` command sent. -/
inductive PullClient where
  | clientErr
  | sent (url dest : Str)
deriving DecidableEq

/-- `handle_pull` (src/bin/rgdrive.rs:245): reject an unparsable url; an
existing regular file without the overwrite flag is rejected; a
destination that is not a file is rejected when it has no extension and is
not an existing directory; anything else is sent to the daemon. -/
def handle_pull (urlOk : Bool) (d : DestInfo) (url dest : Str) (overwrite : Bool) : PullClient :=
  if !urlOk then .clientErr
  else if d.isFile then
    if d.exi && !overwrite then .clientErr else .sent url dest
  else if !d.hasExt && !d.isDir then .clientErr
  else .sent url dest

/-- Client validation composed with the daemon's pull arm: the daemon is
reached only when the client sent the command. -/
def pullPipeline (urlOk : Bool) (d : DestInfo) (env : Str → Bool)
    (dl : Str → Str → Option Str) (st : OldState) (url dest : Str) (overwrite : Bool) :
    OldState × Effects :=
  match handle_pull urlOk d url dest overwrite with
  | .clientErr => (st, Effects.silent)
  | .sent u de => pullArm env dl st u de

/-- `DCommand` of `src/bin/lib.rs:57`, with its string/path payloads as
their UTF-8 byte lists.  Variant order matches the declaration (it fixes
the wire tags). -/
inductive DCommand where
  | Pull (url : Bytes) (dest : Bytes) (overwrite : Bool)
  | Push (p : Bytes)
  | FSync (p : Bytes) (url : Bytes)
  | FUnSync (p : Bytes)
  | None
  | Message (m : Bytes)
  | Ok
  | Quit
deriving DecidableEq

/-- `DResult` of `src/bin/lib.rs:29`. -/
inductive DResult where
  | Ok (m : Bytes)
  | Err (m : Bytes)
deriving DecidableEq

/-- Little-endian fixed-width byte encoding of a natural (width in
bytes first). -/
def natToBytes : Nat → Nat → Bytes
  | 0, _ => []
  | k + 1, n => n % 256 :: natToBytes k (n / 256)

/-- Read back a little-endian fixed-width natural. -/
def readNatK : Nat → Bytes → Option (Nat × Bytes)
  | 0, l => some (0, l)
  | _ + 1, [] => none
  | k + 1, b :: l =>
    match readNatK k l with
    | some (n, r) => some (b + 256 * n, r)
    | none => none

/-- Modelled from the spec: bincode's encoding of a byte string — a u64
little-endian length followed by the bytes.  The encoder itself is the
external `bincode` crate (not part of this repository); the spec only
requires a self-describing tag-plus-fields encoding. -/
def writeBytes (s : Bytes) : Bytes := natToBytes 8 s.length ++ s

def readLenBytes (l : Bytes) : Option (Bytes × Bytes) :=
  match readNatK 8 l with
  | some (n, r) => if n ≤ r.length then some (r.take n, r.drop n) else none
  | none => none

def writeBool (b : Bool) : Bytes := [if b then 1 else 0]

def readBool (l : Bytes) : Option (Bool × Bytes) :=
  match l with
  | 0 :: r => some (false, r)
  | 1 :: r => some (true, r)
  | _ => none

/-- Modelled from the spec: the bincode wire form of a `DCommand` — a u32
little-endian variant tag followed by the fields (strings and paths
length-prefixed, bools one byte). -/
def serializeDCommand : DCommand → Bytes
  | .Pull u d b => natToBytes 4 0 ++ (writeBytes u ++ (writeBytes d ++ writeBool b))
  | .Push p => natToBytes 4 1 ++ writeBytes p
  | .FSync p u => natToBytes 4 2 ++ (writeBytes p ++ writeBytes u)
  | .FUnSync p => natToBytes 4 3 ++ writeBytes p
  | .None => natToBytes 4 4
  | .Message m => natToBytes 4 5 ++ writeBytes m
  | .Ok => natToBytes 4 6
  | .Quit => natToBytes 4 7

/-- Modelled from the spec: bincode deserialization of a `DCommand`
(trailing bytes are tolerated, as by `bincode::deserialize`); `none` is a
decode failure. -/
def deserializeDCommand (l : Bytes) : Option DCommand :=
  match readNatK 4 l with
  | some (0, r) =>
    match readLenBytes r with
    | some (u, r1) =>
      match readLenBytes r1 with
      | some (d, r2) =>
        match readBool r2 with
        | some (b, _) => some (.Pull u d b)
        | none => none
      | none => none
    | none => none
  | some (1, r) =>
    match readLenBytes r with
    | some (p, _) => some (.Push p)
    | none => none
  | some (2, r) =>
    match readLenBytes r with
    | some (p, r1) =>
      match readLenBytes r1 with
      | some (u, _) => some (.FSync p u)
      | none => none
    | none => none
  | some (3, r) =>
    match readLenBytes r with
    | some (p, _) => some (.FUnSync p)
    | none => none
  | some (4, _) => some .None
  | some (5, r) =>
    match readLenBytes r with
    | some (m, _) => some (.Message m)
    | none => none
  | some (6, _) => some .Ok
  | some (7, _) => some .Quit
  | _ => none

/-- `DCommand::from_stream` (src/bin/lib.rs:81): a non-empty buffer is
deserialized (a failure panics, modelled as `none`); an empty buffer
yields `DCommand::None` without error. -/
def fromStream (buf : Bytes) : Option DCommand :=
  if 0 < buf.length then deserializeDCommand buf else some .None

def serializeDResult : DResult → Bytes
  | .Ok m => natToBytes 4 0 ++ writeBytes m
  | .Err m => natToBytes 4 1 ++ writeBytes m

def deserializeDResult (l : Bytes) : Option DResult :=
  match readNatK 4 l with
  | some (0, r) =>
    match readLenBytes r with
    | some (m, _) => some (.Ok m)
    | none => none
  | some (1, r) =>
    match readLenBytes r with
    | some (m, _) => some (.Err m)
    | none => none
  | _ => none

/-- A byte-string payload representable in a u64 length prefix. -/
@[reducible] def wfLen (s : Bytes) : Prop := s.length < 256 ^ 8

@[reducible] def WfDCommand : DCommand → Prop
  | .Pull u d _ => wfLen u ∧ wfLen d
  | .Push p => wfLen p
  | .FSync p u => wfLen p ∧ wfLen u
  | .FUnSync p => wfLen p
  | .Message m => wfLen m
  | .None => True
  | .Ok => True
  | .Quit => True

@[reducible] def WfDResult : DResult → Prop
  | .Ok m => wfLen m
  | .Err m => wfLen m

/-- Keys of the map and live watch descriptors are below the fresh
counter (holds in every reachable daemon state). -/
@[reducible] def wdBound (st : OldState) : Prop :=
  (∀ e ∈ st.tf.map, e.1 < st.ino.nextWd) ∧ (∀ w ∈ st.ino.watches, w.1 < st.ino.nextWd)

/-- The path is currently watched by the inotify instance. -/
@[reducible] def watchedPath (i : Inotify) (p : Str) : Prop :=
  ∃ w ∈ i.watches, w.2 = p

theorem natToBytes_length (k n : Nat) : (natToBytes k n).length = k := by
  induction k generalizing n with
  | zero => rfl
  | succ k ih => simp [natToBytes, ih]

theorem readNatK_natToBytes (k n : Nat) (rest : Bytes) (h : n < 256 ^ k) :
    readNatK k (natToBytes k n ++ rest) = some (n, rest) := by
  induction k generalizing n with
  | zero =>
    have h0 : n = 0 := Nat.lt_one_iff.mp (by simpa using h)
    subst h0; rfl
  | succ k ih =>
    have h2 : n / 256 < 256 ^ k := by
      apply Nat.div_lt_of_lt_mul
      calc n < 256 ^ (k + 1) := h
        _ = 256 * 256 ^ k := by ring
    simp [natToBytes, readNatK, ih (n / 256) h2]
    exact Nat.mod_add_div n 256

theorem takeLen (s rest : Bytes) : (s ++ rest).take s.length = s := by
  induction s with
  | nil => rfl
  | cons a t ih => simp [ih]

theorem dropLen (s rest : Bytes) : (s ++ rest).drop s.length = rest := by
  induction s with
  | nil => rfl
  | cons a t ih => simp [ih]

theorem readLenBytes_writeBytes (s rest : Bytes) (h : wfLen s) :
    readLenBytes (writeBytes s ++ rest) = some (s, rest) := by
  unfold readLenBytes writeBytes
  rw [List.append_assoc, readNatK_natToBytes 8 s.length (s ++ rest) h]
  have hle : s.length ≤ (s ++ rest).length := by simp
  simp [hle, takeLen, dropLen]

theorem readBool_writeBool (b : Bool) : readBool (writeBool b) = some (b, []) := by
  cases b <;> rfl

theorem serializeDCommand_length_pos (c : DCommand) : 0 < (serializeDCommand c).length := by
  cases c <;>
    (simp only [serializeDCommand, List.length_append, natToBytes_length]; omega)

theorem fromStream_serialize (c : DCommand) :
    fromStream (serializeDCommand c) = deserializeDCommand (serializeDCommand c) := by
  unfold fromStream
  rw [if_pos (serializeDCommand_length_pos c)]

theorem readLenBytes_writeBytes_nil (s : Bytes) (h : wfLen s) :
    readLenBytes (writeBytes s) = some (s, []) := by
  have h2 := readLenBytes_writeBytes s [] h
  simpa using h2

/-- C9: decoding the encoded wire form of every `DCommand` variant (Pull,
Push, FSync, FUnSync, None, Message with arbitrary payload, Ok, Quit) and
of every `DResult` variant yields the original value; `from_stream` on the
encoded form likewise (payload lengths fit the u64 length prefix). -/
theorem c9_wire_roundtrip :
    (∀ c : DCommand, WfDCommand c →
      deserializeDCommand (serializeDCommand c) = some c ∧
      fromStream (serializeDCommand c) = some c) ∧
    (∀ r : DResult, WfDResult r → deserializeDResult (serializeDResult r) = some r) := by
  have htag : ∀ (t : Nat) (rest : Bytes), t < 256 →
      readNatK 4 (natToBytes 4 t ++ rest) = some (t, rest) := by
    intro t rest ht
    have hp : (256 : Nat) ^ 4 = 4294967296 := by norm_num
    exact readNatK_natToBytes 4 t rest (by omega)
  have htagn : ∀ t : Nat, t < 256 → readNatK 4 (natToBytes 4 t) = some (t, []) := by
    intro t ht
    have h2 := htag t [] ht
    simpa using h2
  have hds : ∀ c : DCommand, WfDCommand c →
      deserializeDCommand (serializeDCommand c) = some c := by
    intro c hc
    cases c with
    | Pull u d b =>
      obtain ⟨hu, hd⟩ := hc
      simp [serializeDCommand, deserializeDCommand, htag 0 _ (by norm_num),
        readLenBytes_writeBytes _ _ hu, readLenBytes_writeBytes _ _ hd, readBool_writeBool]
    | Push p =>
      simp [serializeDCommand, deserializeDCommand, htag 1 _ (by norm_num),
        readLenBytes_writeBytes_nil _ hc]
    | FSync p u =>
      obtain ⟨hp, hu⟩ := hc
      simp [serializeDCommand, deserializeDCommand, htag 2 _ (by norm_num),
        readLenBytes_writeBytes _ _ hp, readLenBytes_writeBytes_nil _ hu]
    | FUnSync p =>
      simp [serializeDCommand, deserializeDCommand, htag 3 _ (by norm_num),
        readLenBytes_writeBytes_nil _ hc]
    | None =>
      simp [serializeDCommand, deserializeDCommand, htagn 4 (by norm_num)]
    | Message m =>
      simp [serializeDCommand, deserializeDCommand, htag 5 _ (by norm_num),
        readLenBytes_writeBytes_nil _ hc]
    | Ok =>
      simp [serializeDCommand, deserializeDCommand, htagn 6 (by norm_num)]
    | Quit =>
      simp [serializeDCommand, deserializeDCommand, htagn 7 (by norm_num)]
  refine ⟨fun c hc => ⟨hds c hc, ?_⟩, ?_⟩
  · rw [fromStream_serialize c, hds c hc]
  · intro r hr
    cases r with
    | Ok m =>
      simp [serializeDResult, deserializeDResult, htag 0 _ (by norm_num),
        readLenBytes_writeBytes_nil _ hr]
    | Err m =>
      simp [serializeDResult, deserializeDResult, htag 1 _ (by norm_num),
        readLenBytes_writeBytes_nil _ hr]

/-- Witness for C9 at a concrete command and result. -/
theorem c9_wire_roundtrip_witness :
    (deserializeDCommand (serializeDCommand (.Message [104, 105])) = some (.Message [104, 105]) ∧
      fromStream (serializeDCommand (.Message [104, 105])) = some (.Message [104, 105])) ∧
    deserializeDResult (serializeDResult (.Err [112])) = some (.Err [112]) :=
  ⟨c9_wire_roundtrip.1 (.Message [104, 105]) (by decide),
    c9_wire_roundtrip.2 (.Err [112]) (by decide)⟩

/-- C8: a zero-length payload decodes to `DCommand::None` without error,
and the text dispatcher returns at once on an empty read: the daemon state
is unchanged, no remote call is made and no response is written. -/
theorem c8_empty_command :
    fromStream [] = some .None ∧
    ∀ (env : Str → Bool) (upl : Str → Option Str) (dl : Str → Str → Option Str)
      (fs : Str → FsEntry) (st : OldState),
      handleStream env upl dl fs [] st = some (st, Effects.silent) :=
  ⟨rfl, fun _ _ _ _ _ => rfl⟩

/-- C1: evaluation at the failing input.  Starting from an absent durable
file, the first `add_path` persists (`create_new` succeeds) and reloading
reproduces the single pair; the second `add_path` on a fresh path fails
with AlreadyExists because `Tracker::save` opens the existing file in
create-new mode, so the durable store is left without the second pair even
though it is tracked in memory. -/
theorem c1_persist_create_new_bug :
    let env : Str → Bool := fun _ => true
    let s1 := Tracker.add_path env ⟨Inotify.init, []⟩ FileState.absent ['a'] ['u']
    let s2 := Tracker.add_path env s1.2.1 s1.2.2 ['b'] ['v']
    s1.1 = .ok () ∧ s1.2.2 = .valid [(['u'], ['a'])] ∧
    (Tracker.init env s1.2.2).pairs = s1.2.1.pairs ∧
    s2.1 = .error .alreadyExists ∧ s2.2.2 = s1.2.2 ∧
    countPath s2.2.1 ['b'] = 1 ∧
    (Tracker.init env s2.2.2).pairs = [(['u'], ['a'])] ∧
    s2.2.1.pairs = [(['u'], ['a']), (['v'], ['b'])] := by decide

/-- C3 counterexample: `Tracker::remove_path` does not persist.  After
`add_path` of `/a` (which writes the durable file) followed by
`remove_path` of `/a`, the in-memory registry has no entry for `/a`, yet
the durable store still holds the pair and reloading resurrects it —
refuting "removes ... and persists the registry afterward". -/
theorem c3_remove_counterexample :
    let env : Str → Bool := fun _ => true
    let s1 := Tracker.add_path env ⟨Inotify.init, []⟩ FileState.absent ['a'] ['u']
    let r := s1.2.1.remove_path ['a']
    r.1 = .ok () ∧ countPath r.2 ['a'] = 0 ∧
    s1.2.2 = FileState.valid [(['u'], ['a'])] ∧
    (Tracker.init env s1.2.2).pairs = [(['u'], ['a'])] := by decide

/-- C4 counterexample: the registry stores the binding as the comma-joined
string `"path,url"` and the watch loop splits it on every comma, so for
the tracked path `a,b` with remote id `u` the single modify event calls
`update_file` with path `a` and id `b` — not with the tracked path and its
remote id. -/
theorem c4_watch_counterexample :
    let st1 := oldAddPath (fun _ => true) ⟨Inotify.init, ⟨[]⟩, []⟩ ['a', ',', 'b'] ['u']
    let r := processEvent st1.tf.map ⟨1, .modify⟩
    lookupWd st1.tf.map 1 = some (fmtEntry ['a', ',', 'b'] ['u']) ∧
    r.updates = [(['a'], ['b'])] ∧
    (r.updates = [(['a', ',', 'b'], ['u'])] → False) := by decide

/-- C5 counterexample: pushing the directory `d` that contains the regular
files `a` and `b` directly and `sb` inside the subdirectory `s` (uploads
of `a` and `sb` would succeed, those of `b` and of the directory `s`
fail): only the immediate children are attempted, the nested regular file
`sb` is never uploaded, exactly one entry is registered, and no response —
in particular no `Err` summary — is produced. -/
theorem c5_push_counterexample :
    let upl : Str → Option Str := fun p =>
      if p == ['a'] then some ['1'] else if p == ['s', 'b'] then some ['2'] else none
    let tree := FsEntry.dir ['d'] [.file ['a'], .file ['b'], .dir ['s'] [.file ['s', 'b']]]
    let r := pushArm (fun _ => true) upl ⟨Inotify.init, ⟨[]⟩, []⟩ tree
    r.2.uploads = [['a'], ['b'], ['s']] ∧ (['s', 'b'] ∈ r.2.uploads → False) ∧
    r.2.resps = [] ∧ mapValues r.1.tf.map = [fmtEntry ['a'] ['1']] := by decide

/-- C6 counterexample: for a destination that is an existing regular file
with no extension, pulled with `overwrite = true`, the claim's second rule
(no extension and not an existing directory ⇒ `Err`, no remote call)
demands an error, but the code only checks the extension when the
destination is not an existing file: the command is sent and the download
is performed. -/
theorem c6_pull_counterexample :
    let r := pullPipeline true ⟨true, true, false, false⟩ (fun _ => true)
      (fun _ d => some d) ⟨Inotify.init, ⟨[]⟩, []⟩ ['u'] ['p'] true
    handle_pull true ⟨true, true, false, false⟩ ['u'] ['p'] true = .sent ['u'] ['p'] ∧
    r.2.downloads = [(['u'], ['p'])] ∧ (r.2.downloads = [] → False) := by decide


theorem add_watch_ok (env : Str → Bool) (i : Inotify) (p : Str) (h : env p = true) :
    ∃ wd ino1, i.add_watch env p = .ok (wd, ino1) ∧ ino1.watchedWd wd = true := by
  unfold Inotify.add_watch
  rw [h]
  cases hf : i.watches.find? (fun w => w.2 == p) with
  | some w =>
    refine ⟨w.1, i, by simp, ?_⟩
    have hw := List.mem_of_find?_eq_some hf
    simp only [Inotify.watchedWd, List.any_eq_true]
    exact ⟨w, hw, by simp⟩
  | none =>
    refine ⟨i.nextWd, ⟨i.nextWd + 1, (i.nextWd, p) :: i.watches⟩, by simp, ?_⟩
    simp [Inotify.watchedWd]

theorem countPath_zero_any (t : Tracker) (p : Str) (h : countPath t p = 0) :
    t.tracked_files.any (fun tf => tf.path == p) = false := by
  have hfil : t.tracked_files.filter (fun tf => tf.path == p) = [] :=
    List.length_eq_zero.mp h
  rw [List.any_eq_false]
  intro tf htf hbeq
  have hmem : tf ∈ t.tracked_files.filter (fun tf => tf.path == p) :=
    List.mem_filter.mpr ⟨htf, hbeq⟩
  rw [hfil] at hmem
  simp at hmem

theorem add_path_not_tracked (env : Str → Bool) (t : Tracker) (store : FileState) (p u : Str)
    (hany : t.tracked_files.any (fun tf => tf.path == p) = false)
    (wd : Nat) (ino1 : Inotify) (hw : t.inotify.add_watch env p = .ok (wd, ino1)) :
    Tracker.add_path env t store p u =
      (match Tracker.save ⟨ino1, t.tracked_files ++ [⟨u, p, some wd⟩]⟩ store with
        | .ok store1 => (.ok (), ⟨ino1, t.tracked_files ++ [⟨u, p, some wd⟩]⟩, store1)
        | .error e => (.error e, ⟨ino1, t.tracked_files ++ [⟨u, p, some wd⟩]⟩, store)) := by
  simp only [Tracker.add_path, hany, Bool.false_eq_true, if_false, hw]

theorem add_path_tracked (env : Str → Bool) (t : Tracker) (store : FileState) (p u : Str)
    (hany : t.tracked_files.any (fun tf => tf.path == p) = true) :
    Tracker.add_path env t store p u = (.ok (), t, store) := by
  unfold Tracker.add_path
  rw [hany]
  simp

/-- C2: with `p` untracked and watchable, calling `add_path` twice with
the same path leaves exactly one tracked entry for `p`, and the second
call returns `Ok` as a no-op: it leaves the registry, the inotify
instance (so no second watch is registered) and the durable store exactly
as the first call left them. -/
theorem c2_idempotent_add (env : Str → Bool) (t : Tracker) (store : FileState) (p u : Str)
    (h0 : countPath t p = 0) (h1 : env p = true) :
    countPath (Tracker.add_path env t store p u).2.1 p = 1 ∧
    (Tracker.add_path env (Tracker.add_path env t store p u).2.1
        (Tracker.add_path env t store p u).2.2 p u).1 = .ok () ∧
    (Tracker.add_path env (Tracker.add_path env t store p u).2.1
        (Tracker.add_path env t store p u).2.2 p u).2.1 =
      (Tracker.add_path env t store p u).2.1 ∧
    (Tracker.add_path env (Tracker.add_path env t store p u).2.1
        (Tracker.add_path env t store p u).2.2 p u).2.2 =
      (Tracker.add_path env t store p u).2.2 := by
  have hany := countPath_zero_any t p h0
  have hfil : t.tracked_files.filter (fun tf => tf.path == p) = [] :=
    List.length_eq_zero.mp h0
  obtain ⟨wd, ino1, hw, hlive⟩ := add_watch_ok env t.inotify p h1
  have hadd := add_path_not_tracked env t store p u hany wd ino1 hw
  have hproj : (Tracker.add_path env t store p u).2.1 =
      ⟨ino1, t.tracked_files ++ [⟨u, p, some wd⟩]⟩ := by
    cases store <;> rw [hadd] <;> simp [Tracker.save]
  have hany1 : (⟨ino1, t.tracked_files ++ [⟨u, p, some wd⟩]⟩ : Tracker).tracked_files.any
      (fun tf => tf.path == p) = true := by
    simp [List.any_append]
  have hsecond : ∀ s : FileState,
      Tracker.add_path env ⟨ino1, t.tracked_files ++ [⟨u, p, some wd⟩]⟩ s p u =
        (.ok (), ⟨ino1, t.tracked_files ++ [⟨u, p, some wd⟩]⟩, s) :=
    fun s => add_path_tracked env _ s p u hany1
  refine ⟨?_, ?_, ?_, ?_⟩ <;> rw [hproj]
  · simp [countPath, List.filter_append, hfil]
  · rw [hsecond]
  · rw [hsecond]
  · rw [hsecond]

/-- Witness for C2 at a concrete tracker, path and store. -/
theorem c2_idempotent_add_witness :
    countPath (Tracker.add_path (fun _ => true) ⟨Inotify.init, []⟩ FileState.absent
      ['a'] ['u']).2.1 ['a'] = 1 ∧
    (Tracker.add_path (fun _ => true)
        (Tracker.add_path (fun _ => true) ⟨Inotify.init, []⟩ FileState.absent ['a'] ['u']).2.1
        (Tracker.add_path (fun _ => true) ⟨Inotify.init, []⟩ FileState.absent ['a'] ['u']).2.2
        ['a'] ['u']).1 = .ok () ∧
    (Tracker.add_path (fun _ => true)
        (Tracker.add_path (fun _ => true) ⟨Inotify.init, []⟩ FileState.absent ['a'] ['u']).2.1
        (Tracker.add_path (fun _ => true) ⟨Inotify.init, []⟩ FileState.absent ['a'] ['u']).2.2
        ['a'] ['u']).2.1 =
      (Tracker.add_path (fun _ => true) ⟨Inotify.init, []⟩ FileState.absent ['a'] ['u']).2.1 ∧
    (Tracker.add_path (fun _ => true)
        (Tracker.add_path (fun _ => true) ⟨Inotify.init, []⟩ FileState.absent ['a'] ['u']).2.1
        (Tracker.add_path (fun _ => true) ⟨Inotify.init, []⟩ FileState.absent ['a'] ['u']).2.2
        ['a'] ['u']).2.2 =
      (Tracker.add_path (fun _ => true) ⟨Inotify.init, []⟩ FileState.absent ['a'] ['u']).2.2 :=
  c2_idempotent_add (fun _ => true) ⟨Inotify.init, []⟩ FileState.absent ['a'] ['u']
    (by decide) rfl


theorem removeLoop_nil (ino : Inotify) (acc : List TrackedFile) (p : Str) :
    removeLoop ino acc [] p = .ok (ino, acc) := rfl

theorem removeLoop_cons (ino : Inotify) (acc : List TrackedFile) (tf : TrackedFile)
    (rs : List TrackedFile) (p : Str) :
    removeLoop ino acc (tf :: rs) p =
      (if tf.path == p then
        match tf.wd with
        | some w =>
          match ino.rm_watch w with
          | .ok ino1 => removeLoop ino1 acc rs p
          | .error e => .error (e, ino)
        | none => removeLoop ino acc rs p
      else removeLoop ino (acc ++ [tf]) rs p) := rfl

theorem removeLoop_no_match (p : Str) (rest : List TrackedFile) :
    ∀ (ino : Inotify) (acc : List TrackedFile),
    (∀ tf ∈ rest, (tf.path == p) = false) →
    removeLoop ino acc rest p = .ok (ino, acc ++ rest) := by
  induction rest with
  | nil => intro ino acc _; simp [removeLoop_nil]
  | cons tf rs ih =>
    intro ino acc h
    have h1 : (tf.path == p) = false := h tf (by simp)
    have h2 : ∀ tf2 ∈ rs, (tf2.path == p) = false := fun tf2 htf2 => h tf2 (by simp [htf2])
    simp only [removeLoop_cons, h1, Bool.false_eq_true, if_false]
    rw [ih ino (acc ++ [tf]) h2]
    simp

theorem watchedWd_filter_self (ino : Inotify) (w : Nat) :
    (Inotify.mk ino.nextWd (ino.watches.filter (fun e => e.1 != w))).watchedWd w = false := by
  simp only [Inotify.watchedWd, List.any_eq_false]
  intro e he
  have hb := (List.mem_filter.mp he).2
  simp only [bne_iff_ne, ne_eq] at hb
  simp [hb]

theorem watchedWd_filter_mono (ino : Inotify) (w w2 : Nat) :
    (Inotify.mk ino.nextWd (ino.watches.filter (fun e => e.1 != w))).watchedWd w2 = true →
    ino.watchedWd w2 = true := by
  simp only [Inotify.watchedWd, List.any_eq_true]
  rintro ⟨e, he, hb⟩
  exact ⟨e, (List.mem_filter.mp he).1, hb⟩

theorem removeLoop_spec (p : Str) (rest : List TrackedFile) :
    ∀ (ino : Inotify) (acc : List TrackedFile),
    (rest.filter (fun tf => tf.path == p)).length ≤ 1 →
    (∀ tf ∈ rest, tf.path = p → ∀ w, tf.wd = some w → ino.watchedWd w = true) →
    ∃ ino2,
      removeLoop ino acc rest p = .ok (ino2, acc ++ rest.filter (fun tf => tf.path != p)) ∧
      (∀ w2, ino2.watchedWd w2 = true → ino.watchedWd w2 = true) ∧
      (∀ tf ∈ rest, tf.path = p → ∀ w, tf.wd = some w → ino2.watchedWd w = false) := by
  induction rest with
  | nil =>
    intro ino acc _ _
    exact ⟨ino, by simp [removeLoop_nil], fun _ h => h, by simp⟩
  | cons tf rs ih =>
    intro ino acc hcount hlive
    by_cases hbeq : (tf.path == p) = true
    · have hpath : tf.path = p := by simpa using hbeq
      have hcrs : (rs.filter (fun tf => tf.path == p)).length = 0 := by
        rw [List.filter_cons, if_pos hbeq] at hcount
        simp only [List.length_cons] at hcount
        omega
      have hnors : ∀ tf2 ∈ rs, (tf2.path == p) = false := by
        have hfil : rs.filter (fun tf => tf.path == p) = [] := List.length_eq_zero.mp hcrs
        intro tf2 h2
        cases hb : (tf2.path == p) with
        | false => rfl
        | true =>
          exfalso
          have hmem : tf2 ∈ rs.filter (fun tf => tf.path == p) :=
            List.mem_filter.mpr ⟨h2, hb⟩
          rw [hfil] at hmem
          simp at hmem
      have hfilrs : rs.filter (fun tf => tf.path != p) = rs := by
        apply List.filter_eq_self.mpr
        intro a ha
        simp [bne, hnors a ha]
      have hfilcons : (tf :: rs).filter (fun tf => tf.path != p) = rs := by
        rw [List.filter_cons, if_neg (by simp [bne, hbeq]), hfilrs]
      cases hwd : tf.wd with
      | none =>
        refine ⟨ino, ?_, fun _ h => h, ?_⟩
        · simp only [removeLoop_cons, hbeq, if_true, hwd]
          rw [removeLoop_no_match p rs ino acc hnors, hfilcons]
        · intro tf2 hmem hp2 w hw2
          rcases List.mem_cons.mp hmem with h | h
          · subst h; rw [hwd] at hw2; exact absurd hw2 (by simp)
          · exfalso; have hx := hnors tf2 h; rw [hp2] at hx; simp at hx
      | some w =>
        have hliveW : ino.watchedWd w = true := hlive tf (by simp) hpath w hwd
        have hrm : ino.rm_watch w =
            .ok ⟨ino.nextWd, ino.watches.filter (fun e => e.1 != w)⟩ := by
          simp [Inotify.rm_watch, hliveW]
        refine ⟨⟨ino.nextWd, ino.watches.filter (fun e => e.1 != w)⟩, ?_, ?_, ?_⟩
        · simp only [removeLoop_cons, hbeq, if_true, hwd, hrm]
          rw [removeLoop_no_match p rs _ acc hnors, hfilcons]
        · exact watchedWd_filter_mono ino w
        · intro tf2 hmem hp2 w2 hw2
          rcases List.mem_cons.mp hmem with h | h
          · subst h
            rw [hwd] at hw2
            injection hw2 with hww
            subst hww
            exact watchedWd_filter_self ino _
          · exfalso; have hx := hnors tf2 h; rw [hp2] at hx; simp at hx
    · have hbfalse : (tf.path == p) = false := by simpa using hbeq
      have hcount2 : (rs.filter (fun tf => tf.path == p)).length ≤ 1 := by
        rw [List.filter_cons, if_neg (by simp [hbfalse])] at hcount
        exact hcount
      have hlive2 : ∀ tf2 ∈ rs, tf2.path = p → ∀ w, tf2.wd = some w →
          ino.watchedWd w = true :=
        fun tf2 h2 => hlive tf2 (by simp [h2])
      obtain ⟨ino2, hok, hsub, hrel⟩ := ih ino (acc ++ [tf]) hcount2 hlive2
      refine ⟨ino2, ?_, hsub, ?_⟩
      · simp only [removeLoop_cons, hbfalse, Bool.false_eq_true, if_false]
        rw [hok, List.filter_cons, if_pos (by simp [bne, hbfalse])]
        simp
      · intro tf2 hmem hp2 w hw2
        rcases List.mem_cons.mp hmem with h | h
        · subst h; rw [hp2] at hbfalse; simp at hbfalse
        · exact hrel tf2 h hp2 w hw2

theorem remove_path_full (t : Tracker) (p : Str)
    (hc : countPath t p ≤ 1)
    (hl : ∀ tf ∈ t.tracked_files, tf.path = p → ∀ w, tf.wd = some w →
      t.inotify.watchedWd w = true) :
    (t.remove_path p).1 = .ok () ∧
    (t.remove_path p).2.tracked_files = t.tracked_files.filter (fun tf => tf.path != p) ∧
    (∀ tf ∈ t.tracked_files, tf.path = p → ∀ w, tf.wd = some w →
      (t.remove_path p).2.inotify.watchedWd w = false) := by
  obtain ⟨ino2, hok, hsub, hrel⟩ := removeLoop_spec p t.tracked_files t.inotify [] hc hl
  have heq : t.remove_path p =
      (.ok (), ⟨ino2, t.tracked_files.filter (fun tf => tf.path != p)⟩) := by
    unfold Tracker.remove_path
    rw [hok]
    simp
  rw [heq]
  exact ⟨rfl, rfl, hrel⟩

theorem remove_path_no_match (t : Tracker) (p : Str) (h0 : countPath t p = 0) :
    t.remove_path p = (.ok (), t) := by
  have hall : ∀ tf ∈ t.tracked_files, (tf.path == p) = false := by
    have h := countPath_zero_any t p h0
    rw [List.any_eq_false] at h
    intro tf htf
    have h2 := h tf htf
    simpa using h2
  unfold Tracker.remove_path
  rw [removeLoop_no_match p t.tracked_files t.inotify [] hall]
  simp

theorem filter_ne_then_eq (p : Str) (l : List TrackedFile) :
    (l.filter (fun tf => tf.path != p)).filter (fun tf => tf.path == p) = [] := by
  induction l with
  | nil => rfl
  | cons a l ihl =>
    by_cases hb : (a.path == p) = true
    · rw [List.filter_cons, if_neg (by simp [bne, hb])]
      exact ihl
    · have hbf : (a.path == p) = false := by simpa using hb
      rw [List.filter_cons, if_pos (by simp [bne, hbf]), List.filter_cons,
        if_neg (by simp [hbf])]
      exact ihl

/-- C3 (amended): `remove_path` removes every entry whose path equals `p`
and no entry with a different path, releases the watch of each removed
entry that has one, and is a no-op `Ok` when no entry matches;
`add_path(p, u)` followed by `remove_path(p)` leaves no entry for `p`.
Contrary to the original claim, `remove_path` does NOT persist the
registry afterwards: the durable store is untouched (see the
counterexample), and is only rewritten by the next successful `add_path`. -/
theorem c3_remove_semantics :
    (∀ (t : Tracker) (p : Str), countPath t p ≤ 1 →
      (∀ tf ∈ t.tracked_files, tf.path = p → ∀ w, tf.wd = some w →
        t.inotify.watchedWd w = true) →
      (t.remove_path p).1 = .ok () ∧
      (t.remove_path p).2.tracked_files = t.tracked_files.filter (fun tf => tf.path != p) ∧
      (∀ tf ∈ t.tracked_files, tf.path = p → ∀ w, tf.wd = some w →
        (t.remove_path p).2.inotify.watchedWd w = false)) ∧
    (∀ (t : Tracker) (p : Str), countPath t p = 0 → t.remove_path p = (.ok (), t)) ∧
    (∀ (env : Str → Bool) (t : Tracker) (store : FileState) (p u : Str),
      countPath t p = 0 → env p = true →
      countPath ((Tracker.add_path env t store p u).2.1.remove_path p).2 p = 0) := by
  refine ⟨remove_path_full, remove_path_no_match, ?_⟩
  intro env t store p u h0 h1
  have hany := countPath_zero_any t p h0
  have hfil : t.tracked_files.filter (fun tf => tf.path == p) = [] :=
    List.length_eq_zero.mp h0
  obtain ⟨wd, ino1, hw, hlive⟩ := add_watch_ok env t.inotify p h1
  have hadd := add_path_not_tracked env t store p u hany wd ino1 hw
  have hproj : (Tracker.add_path env t store p u).2.1 =
      ⟨ino1, t.tracked_files ++ [⟨u, p, some wd⟩]⟩ := by
    cases store <;> rw [hadd] <;> simp [Tracker.save]
  rw [hproj]
  have hc1 : countPath (⟨ino1, t.tracked_files ++ [⟨u, p, some wd⟩]⟩ : Tracker) p ≤ 1 := by
    simp [countPath, List.filter_append, hfil]
  have hl1 : ∀ tf ∈ (⟨ino1, t.tracked_files ++ [⟨u, p, some wd⟩]⟩ : Tracker).tracked_files,
      tf.path = p → ∀ w, tf.wd = some w →
      (⟨ino1, t.tracked_files ++ [⟨u, p, some wd⟩]⟩ : Tracker).inotify.watchedWd w = true := by
    intro tf hmem hp2 w2 hw2
    rcases List.mem_append.mp hmem with h | h
    · exfalso
      have hmem2 : tf ∈ t.tracked_files.filter (fun tf => tf.path == p) :=
        List.mem_filter.mpr ⟨h, by simp [hp2]⟩
      rw [hfil] at hmem2
      simp at hmem2
    · have htf : tf = ⟨u, p, some wd⟩ := by simpa using h
      subst htf
      simp only at hw2
      injection hw2 with hww
      subst hww
      exact hlive
  obtain ⟨_, hfiles, _⟩ :=
    remove_path_full ⟨ino1, t.tracked_files ++ [⟨u, p, some wd⟩]⟩ p hc1 hl1
  simp only [countPath, hfiles, filter_ne_then_eq, List.length_nil]

/-- Witness for the amended C3 at a concrete one-entry tracker, plus the
add-then-remove instance. -/
theorem c3_remove_semantics_witness :
    ((⟨⟨2, [(1, ['a'])]⟩, [⟨['u'], ['a'], some 1⟩]⟩ : Tracker).remove_path ['a']).1 = .ok () ∧
    ((⟨⟨2, [(1, ['a'])]⟩, [⟨['u'], ['a'], some 1⟩]⟩ : Tracker).remove_path
        ['a']).2.tracked_files =
      [(⟨['u'], ['a'], some 1⟩ : TrackedFile)].filter (fun tf => tf.path != ['a']) ∧
    ((⟨⟨2, [(1, ['b'])]⟩, [⟨['u'], ['b'], some 1⟩]⟩ : Tracker).remove_path ['a'] =
      (.ok (), ⟨⟨2, [(1, ['b'])]⟩, [⟨['u'], ['b'], some 1⟩]⟩)) ∧
    countPath ((Tracker.add_path (fun _ => true) ⟨Inotify.init, []⟩ FileState.absent
        ['a'] ['u']).2.1.remove_path ['a']).2 ['a'] = 0 :=
  ⟨(c3_remove_semantics.1 ⟨⟨2, [(1, ['a'])]⟩, [⟨['u'], ['a'], some 1⟩]⟩ ['a']
      (by decide) (by decide)).1,
    (c3_remove_semantics.1 ⟨⟨2, [(1, ['a'])]⟩, [⟨['u'], ['a'], some 1⟩]⟩ ['a']
      (by decide) (by decide)).2.1,
    c3_remove_semantics.2.1 ⟨⟨2, [(1, ['b'])]⟩, [⟨['u'], ['b'], some 1⟩]⟩ ['a'] (by decide),
    c3_remove_semantics.2.2 (fun _ => true) ⟨Inotify.init, []⟩ FileState.absent ['a'] ['u']
      (by decide) rfl⟩

theorem initStep_env_false (env : Str → Bool) (t : Tracker) (e : Str × Str)
    (h : env e.2 = false) : initStep env t e = t := by
  unfold initStep Inotify.add_watch
  rw [h]
  simp

theorem initFold_pairs (env : Str → Bool) (es : List (Str × Str)) :
    ∀ t : Tracker,
    (es.foldl (initStep env) t).pairs = t.pairs ++ es.filter (fun e => env e.2) := by
  induction es with
  | nil => intro t; simp
  | cons e rs ih =>
    intro t
    simp only [List.foldl_cons]
    cases henv : env e.2 with
    | true =>
      obtain ⟨wd, ino1, hw, _⟩ := add_watch_ok env t.inotify e.2 henv
      have hstep : initStep env t e = ⟨ino1, t.tracked_files ++ [⟨e.1, e.2, some wd⟩]⟩ := by
        simp [initStep, hw]
      rw [hstep, ih]
      simp [Tracker.pairs, List.filter_cons, henv]
    | false =>
      rw [initStep_env_false env t e henv, ih, List.filter_cons, if_neg (by simp [henv])]

theorem initFold_allSome (env : Str → Bool) (es : List (Str × Str)) :
    ∀ t : Tracker, AllSome t → AllSome (es.foldl (initStep env) t) := by
  induction es with
  | nil => intro t h; exact h
  | cons e rs ih =>
    intro t h
    simp only [List.foldl_cons]
    apply ih
    unfold initStep
    cases hw : t.inotify.add_watch env e.2 with
    | error err => exact h
    | ok pr =>
      intro tf htf
      rcases List.mem_append.mp htf with hm | hm
      · exact h tf hm
      · have : tf = ⟨e.1, e.2, some pr.1⟩ := by
          cases pr
          simpa using hm
        subst this
        rfl

/-- C7: `Tracker::init` reads the durable file when present and attempts a
watch for each stored pair; a pair whose registration fails is dropped, so
the loaded registry is exactly the stored list restricted to watchable
paths (possibly strictly smaller); every loaded entry gets a live handle;
a missing or corrupt durable file yields the empty registry rather than a
failure. -/
theorem c7_load_resilience (env : Str → Bool) :
    Tracker.init env .absent = ⟨Inotify.init, []⟩ ∧
    Tracker.init env .corrupt = ⟨Inotify.init, []⟩ ∧
    (∀ es : List (Str × Str),
      (Tracker.init env (.valid es)).pairs = es.filter (fun e => env e.2)) ∧
    (∀ es : List (Str × Str), AllSome (Tracker.init env (.valid es))) := by
  refine ⟨rfl, rfl, fun es => ?_, fun es => ?_⟩
  · show (es.foldl (initStep env) ⟨Inotify.init, []⟩).pairs = _
    rw [initFold_pairs]
    simp [Tracker.pairs]
  · show AllSome (es.foldl (initStep env) ⟨Inotify.init, []⟩)
    exact initFold_allSome env es _ (by intro tf h; simp at h)

/-- Witness for C7: loading a two-pair store where the second path cannot
be watched yields exactly the first pair, every entry with a handle. -/
theorem c7_load_resilience_witness :
    (Tracker.init (fun s => s != ['b']) (.valid [(['u'], ['a']), (['v'], ['b'])])).pairs =
      [(['u'], ['a']), (['v'], ['b'])].filter (fun e => e.2 != ['b']) ∧
    AllSome (Tracker.init (fun s => s != ['b']) (.valid [(['u'], ['a']), (['v'], ['b'])])) :=
  ⟨(c7_load_resilience (fun s => s != ['b'])).2.2.1 [(['u'], ['a']), (['v'], ['b'])],
    (c7_load_resilience (fun s => s != ['b'])).2.2.2 [(['u'], ['a']), (['v'], ['b'])]⟩


theorem add_path_watch_err (env : Str → Bool) (t : Tracker) (store : FileState) (p u : Str)
    (hany : t.tracked_files.any (fun tf => tf.path == p) = false)
    (e : IoErr) (hw : t.inotify.add_watch env p = .error e) :
    Tracker.add_path env t store p u = (.error e, t, store) := by
  simp only [Tracker.add_path, hany, Bool.false_eq_true, if_false, hw]

theorem add_path_allSome (env : Str → Bool) (t : Tracker) (store : FileState) (p u : Str)
    (h : AllSome t) : AllSome (Tracker.add_path env t store p u).2.1 := by
  by_cases hany : t.tracked_files.any (fun tf => tf.path == p) = true
  · rw [add_path_tracked env t store p u hany]
    exact h
  · have hanyf : t.tracked_files.any (fun tf => tf.path == p) = false := by simpa using hany
    cases hw : t.inotify.add_watch env p with
    | error e =>
      rw [add_path_watch_err env t store p u hanyf e hw]
      exact h
    | ok pr =>
      obtain ⟨wd, ino1⟩ := pr
      have hadd := add_path_not_tracked env t store p u hanyf wd ino1 hw
      have hproj : (Tracker.add_path env t store p u).2.1 =
          ⟨ino1, t.tracked_files ++ [⟨u, p, some wd⟩]⟩ := by
        cases store <;> rw [hadd] <;> simp [Tracker.save]
      rw [hproj]
      intro tf htf
      rcases List.mem_append.mp htf with hm | hm
      · exact h tf hm
      · have he : tf = ⟨u, p, some wd⟩ := by simpa using hm
        subst he
        rfl

theorem removeLoop_allSome (p : Str) (rest : List TrackedFile) :
    ∀ (ino : Inotify) (acc : List TrackedFile),
    (∀ tf ∈ acc, tf.wd.isSome = true) → (∀ tf ∈ rest, tf.wd.isSome = true) →
    ∀ ino2 l, removeLoop ino acc rest p = .ok (ino2, l) → ∀ tf ∈ l, tf.wd.isSome = true := by
  induction rest with
  | nil =>
    intro ino acc hacc _ ino2 l hok
    rw [removeLoop_nil] at hok
    injection hok with h2
    injection h2 with _ h3
    subst h3
    exact hacc
  | cons tfh rs ih =>
    intro ino acc hacc hrest ino2 l hok
    have hrs : ∀ tf2 ∈ rs, tf2.wd.isSome = true := fun tf2 h2 => hrest tf2 (by simp [h2])
    by_cases hbeq : (tfh.path == p) = true
    · cases hwd : tfh.wd with
      | none =>
        have hstep : removeLoop ino acc (tfh :: rs) p = removeLoop ino acc rs p := by
          simp only [removeLoop_cons, hbeq, if_true, hwd]
        rw [hstep] at hok
        exact ih ino acc hacc hrs ino2 l hok
      | some w =>
        cases hrm : ino.rm_watch w with
        | ok ino1 =>
          have hstep : removeLoop ino acc (tfh :: rs) p = removeLoop ino1 acc rs p := by
            simp only [removeLoop_cons, hbeq, if_true, hwd, hrm]
          rw [hstep] at hok
          exact ih ino1 acc hacc hrs ino2 l hok
        | error e =>
          have hstep : removeLoop ino acc (tfh :: rs) p = .error (e, ino) := by
            simp only [removeLoop_cons, hbeq, if_true, hwd, hrm]
          rw [hstep] at hok
          simp at hok
    · have hbf : (tfh.path == p) = false := by simpa using hbeq
      have hstep : removeLoop ino acc (tfh :: rs) p = removeLoop ino (acc ++ [tfh]) rs p := by
        simp only [removeLoop_cons, hbf, Bool.false_eq_true, if_false]
      rw [hstep] at hok
      have hacc2 : ∀ tf2 ∈ acc ++ [tfh], tf2.wd.isSome = true := by
        intro tf2 h2
        rcases List.mem_append.mp h2 with hm | hm
        · exact hacc tf2 hm
        · simp only [List.mem_singleton] at hm
          subst hm
          exact hrest _ (by simp)
      exact ih ino (acc ++ [tfh]) hacc2 hrs ino2 l hok

theorem remove_path_allSome (t : Tracker) (p : Str) (h : AllSome t) :
    AllSome (t.remove_path p).2 := by
  unfold Tracker.remove_path
  cases hres : removeLoop t.inotify [] t.tracked_files p with
  | ok pr =>
    obtain ⟨ino2, l⟩ := pr
    show AllSome (⟨ino2, l⟩ : Tracker)
    exact fun tf htf =>
      removeLoop_allSome p t.tracked_files t.inotify [] (by simp) h ino2 l hres tf htf
  | error pr =>
    obtain ⟨e, ino⟩ := pr
    show AllSome (⟨ino, []⟩ : Tracker)
    intro tf htf
    simp at htf

/-- C10: every entry observable in the in-memory registry carries a
populated watch descriptor (`wd` is `Some`): `init` only pushes entries
after their watch registration succeeded, `add_path` only appends entries
with a fresh descriptor, and `remove_path` only ever drops entries — so an
entry with `wd = None` is never observable after load completes. -/
theorem c10_wd_invariant :
    (∀ (env : Str → Bool) (store : FileState), AllSome (Tracker.init env store)) ∧
    (∀ (env : Str → Bool) (t : Tracker) (store : FileState) (p u : Str),
      AllSome t → AllSome (Tracker.add_path env t store p u).2.1) ∧
    (∀ (t : Tracker) (p : Str), AllSome t → AllSome (t.remove_path p).2) := by
  refine ⟨?_, add_path_allSome, remove_path_allSome⟩
  intro env store
  cases store with
  | valid es => exact initFold_allSome env es _ (by intro tf h; simp at h)
  | absent => intro tf h; simp [Tracker.init] at h
  | corrupt => intro tf h; simp [Tracker.init] at h

/-- Witness for C10: the invariant holds after a concrete load, a concrete
add and a concrete remove. -/
theorem c10_wd_invariant_witness :
    AllSome (Tracker.init (fun _ => true) (.valid [(['u'], ['a'])])) ∧
    AllSome (Tracker.add_path (fun _ => true) ⟨Inotify.init, []⟩ FileState.absent
      ['a'] ['u']).2.1 ∧
    AllSome ((⟨⟨2, [(1, ['a'])]⟩, [⟨['u'], ['a'], some 1⟩]⟩ : Tracker).remove_path ['a']).2 :=
  ⟨c10_wd_invariant.1 (fun _ => true) (.valid [(['u'], ['a'])]),
    c10_wd_invariant.2.1 (fun _ => true) ⟨Inotify.init, []⟩ FileState.absent ['a'] ['u']
      (by decide),
    c10_wd_invariant.2.2 ⟨⟨2, [(1, ['a'])]⟩, [⟨['u'], ['a'], some 1⟩]⟩ ['a'] (by decide)⟩

theorem splitSepAux_no_sep (sep : Char) (xs : List Char) :
    ∀ acc, sep ∉ xs → splitSepAux sep acc xs = [acc.reverse ++ xs] := by
  induction xs with
  | nil => intro acc _; simp [splitSepAux]
  | cons c cs ih =>
    intro acc h
    have hne : (c == sep) = false := by
      have : ¬ sep = c := fun he => h (by simp [he])
      simp [beq_iff_eq]
      exact fun he => this he.symm
    have hcs : sep ∉ cs := fun he => h (by simp [he])
    simp only [splitSepAux, hne, Bool.false_eq_true, if_false]
    rw [ih (c :: acc) hcs]
    simp

theorem splitSepAux_break (sep : Char) (xs : List Char) :
    ∀ acc rest, sep ∉ xs →
    splitSepAux sep acc (xs ++ sep :: rest) = (acc.reverse ++ xs) :: splitSepAux sep [] rest := by
  induction xs with
  | nil => intro acc rest _; simp [splitSepAux]
  | cons c cs ih =>
    intro acc rest h
    have hne : (c == sep) = false := by
      have : ¬ sep = c := fun he => h (by simp [he])
      simp [beq_iff_eq]
      exact fun he => this he.symm
    have hcs : sep ∉ cs := fun he => h (by simp [he])
    rw [List.cons_append]
    simp only [splitSepAux, hne, Bool.false_eq_true, if_false]
    rw [ih (c :: acc) rest hcs]
    simp

theorem splitSep_fmtEntry (p u : Str) (hp : ',' ∉ p) (hu : ',' ∉ u) :
    splitSep ',' (fmtEntry p u) = [p, u] := by
  unfold splitSep fmtEntry
  rw [splitSepAux_break ',' p [] u hp, splitSepAux_no_sep ',' u [] hu]
  simp

/-- C4 (amended): a modify event whose handle resolves to a tracked entry
triggers exactly one `update_file` call and leaves the registry unchanged
(so a failed update never removes the entry); the call's arguments are the
first two comma-separated fields of the stored `"path,url"` string, which
equal the tracked path and its remote id exactly when neither contains a
comma (see the counterexample for a comma path); a modify event with no
matching entry triggers zero calls, logs the mismatch, leaves the map
unchanged and is not fatal. -/
theorem c4_watch_update :
    (∀ (m : List (Nat × Str)) (w : Nat) (p u : Str),
      lookupWd m w = some (fmtEntry p u) → ',' ∉ p → ',' ∉ u →
      processEvent m ⟨w, .modify⟩ = ⟨[(p, u)], m, false⟩) ∧
    (∀ (m : List (Nat × Str)) (w : Nat),
      lookupWd m w = none → processEvent m ⟨w, .modify⟩ = ⟨[], m, true⟩) := by
  constructor
  · intro m w p u hm hp hu
    simp [processEvent, hm, splitSep_fmtEntry p u hp hu]
  · intro m w hm
    simp [processEvent, hm]

/-- Witness for the amended C4: a comma-free tracked entry fires exactly
one correct update call, and an unknown handle fires none. -/
theorem c4_watch_update_witness :
    processEvent [(1, fmtEntry ['a'] ['u'])] ⟨1, .modify⟩ =
      ⟨[(['a'], ['u'])], [(1, fmtEntry ['a'] ['u'])], false⟩ ∧
    processEvent [(1, fmtEntry ['a'] ['u'])] ⟨2, .modify⟩ =
      ⟨[], [(1, fmtEntry ['a'] ['u'])], true⟩ :=
  ⟨c4_watch_update.1 [(1, fmtEntry ['a'] ['u'])] 1 ['a'] ['u'] rfl (by decide) (by decide),
    c4_watch_update.2 [(1, fmtEntry ['a'] ['u'])] 2 rfl⟩

theorem oldAddPath_fresh (env : Str → Bool) (st : OldState) (p u : Str)
    (henv : env p = true) (hfresh : ¬ watchedPath st.ino p) (hWf : wdBound st) :
    oldAddPath env st p u =
      ⟨⟨st.ino.nextWd + 1, (st.ino.nextWd, p) :: st.ino.watches⟩,
       ⟨st.tf.map ++ [(st.ino.nextWd, fmtEntry p u)]⟩,
       mapValues st.tf.map ++ [fmtEntry p u]⟩ := by
  have hfind : st.ino.watches.find? (fun w => w.2 == p) = none := by
    rw [List.find?_eq_none]
    intro w hw hbeq
    exact hfresh ⟨w, hw, by simpa using hbeq⟩
  have hw : st.ino.add_watch env p =
      .ok (st.ino.nextWd, ⟨st.ino.nextWd + 1, (st.ino.nextWd, p) :: st.ino.watches⟩) := by
    unfold Inotify.add_watch
    rw [henv, hfind]
    simp
  have hkey : st.tf.map.any (fun e => e.1 == st.ino.nextWd) = false := by
    rw [List.any_eq_false]
    intro e he hbeq
    have hlt := hWf.1 e he
    have heq : e.1 = st.ino.nextWd := by simpa using hbeq
    omega
  unfold oldAddPath
  rw [hw]
  simp only [writeSaved, insertAssoc, hkey, Bool.false_eq_true, if_false]
  simp [mapValues]

theorem wdBound_oldAdd (env : Str → Bool) (st : OldState) (p u : Str)
    (henv : env p = true) (hfresh : ¬ watchedPath st.ino p) (hWf : wdBound st) :
    wdBound (oldAddPath env st p u) := by
  rw [oldAddPath_fresh env st p u henv hfresh hWf]
  constructor
  · intro e he
    rcases List.mem_append.mp he with h | h
    · have := hWf.1 e h
      simp only
      omega
    · have he2 : e = (st.ino.nextWd, fmtEntry p u) := by simpa using h
      subst he2
      simp
  · intro w hw
    rcases List.mem_cons.mp hw with h | h
    · subst h
      simp
    · have := hWf.2 w h
      simp only
      omega

theorem notWatched_oldAdd (env : Str → Bool) (st : OldState) (p u q : Str)
    (henv : env p = true) (hfresh : ¬ watchedPath st.ino p) (hWf : wdBound st)
    (hq : q ≠ p) (hnq : ¬ watchedPath st.ino q) :
    ¬ watchedPath (oldAddPath env st p u).ino q := by
  rw [oldAddPath_fresh env st p u henv hfresh hWf]
  rintro ⟨w, hw, he⟩
  rcases List.mem_cons.mp hw with h | h
  · subst h
    simp only at he
    exact hq he.symm
  · exact hnq ⟨w, h, he⟩

theorem pushChildren_nil (env : Str → Bool) (upl : Str → Option Str) (st : OldState) :
    pushChildren env upl st [] = (st, []) := rfl

theorem pushChildren_cons (env : Str → Bool) (upl : Str → Option Str) (st : OldState)
    (c : FsEntry) (cs : List FsEntry) :
    pushChildren env upl st (c :: cs) =
      (match upl c.path with
        | some url =>
          ((pushChildren env upl (oldAddPath env st c.path url) cs).1,
            c.path :: (pushChildren env upl (oldAddPath env st c.path url) cs).2)
        | none =>
          ((pushChildren env upl st cs).1, c.path :: (pushChildren env upl st cs).2)) := rfl

theorem pushChildren_spec (env : Str → Bool) (upl : Str → Option Str)
    (children : List FsEntry) :
    ∀ st : OldState, wdBound st →
    (∀ c ∈ children, env c.path = true) →
    (∀ c ∈ children, ¬ watchedPath st.ino c.path) →
    (children.map FsEntry.path).Nodup →
    (pushChildren env upl st children).2 = children.map FsEntry.path ∧
    mapValues (pushChildren env upl st children).1.tf.map =
      mapValues st.tf.map ++
        children.filterMap (fun c => (upl c.path).map (fun url => fmtEntry c.path url)) := by
  induction children with
  | nil => intro st _ _ _ _; simp [pushChildren_nil]
  | cons c cs ih =>
    intro st hWf henv hfresh hnodup
    have henvc : env c.path = true := henv c (by simp)
    have hfreshc : ¬ watchedPath st.ino c.path := hfresh c (by simp)
    have hnodup2 : (cs.map FsEntry.path).Nodup := (List.nodup_cons.mp (by simpa using hnodup)).2
    have hcnotin : c.path ∉ cs.map FsEntry.path := (List.nodup_cons.mp (by simpa using hnodup)).1
    cases hup : upl c.path with
    | none =>
      obtain ⟨h1, h2⟩ := ih st hWf (fun x hx => henv x (by simp [hx]))
        (fun x hx => hfresh x (by simp [hx])) hnodup2
      simp only [pushChildren_cons, hup]
      exact ⟨by simp [h1], by simp [h2, List.filterMap_cons, hup]⟩
    | some url =>
      have hfr := oldAddPath_fresh env st c.path url henvc hfreshc hWf
      have hWf1 : wdBound (oldAddPath env st c.path url) :=
        wdBound_oldAdd env st c.path url henvc hfreshc hWf
      have hfresh1 : ∀ x ∈ cs, ¬ watchedPath (oldAddPath env st c.path url).ino x.path := by
        intro x hx
        refine notWatched_oldAdd env st c.path url x.path henvc hfreshc hWf ?_
          (hfresh x (by simp [hx]))
        intro he
        exact hcnotin (he ▸ List.mem_map_of_mem FsEntry.path hx)
      obtain ⟨h1, h2⟩ := ih (oldAddPath env st c.path url) hWf1
        (fun x hx => henv x (by simp [hx])) hfresh1 hnodup2
      have hv : mapValues (oldAddPath env st c.path url).tf.map =
          mapValues st.tf.map ++ [fmtEntry c.path url] := by
        rw [hfr]
        simp [mapValues]
      simp only [pushChildren_cons, hup]
      refine ⟨by simp [h1], ?_⟩
      simp only [h2, hv, List.filterMap_cons, hup]
      simp

/-- C5 (amended): for a `Push` whose path is a directory, the daemon
attempts one upload per immediate child of the directory (in order, with
no recursion into subdirectories and no summary response — the push arm
never writes a reply), and the registry gains exactly the formatted
entries of the children whose upload succeeded; failed uploads are logged
and skipped. -/
theorem c5_push_dir (env : Str → Bool) (upl : Str → Option Str) (st : OldState)
    (d : Str) (children : List FsEntry)
    (hWf : wdBound st)
    (henv : ∀ c ∈ children, env c.path = true)
    (hfresh : ∀ c ∈ children, ¬ watchedPath st.ino c.path)
    (hnodup : (children.map FsEntry.path).Nodup) :
    (pushArm env upl st (.dir d children)).2.uploads = children.map FsEntry.path ∧
    (pushArm env upl st (.dir d children)).2.resps = [] ∧
    (pushArm env upl st (.dir d children)).2.updates = [] ∧
    (pushArm env upl st (.dir d children)).2.exited = false ∧
    mapValues (pushArm env upl st (.dir d children)).1.tf.map =
      mapValues st.tf.map ++
        children.filterMap (fun c => (upl c.path).map (fun url => fmtEntry c.path url)) := by
  obtain ⟨h1, h2⟩ := pushChildren_spec env upl children st hWf henv hfresh hnodup
  refine ⟨?_, rfl, rfl, rfl, ?_⟩
  · simpa [pushArm] using h1
  · simpa [pushArm] using h2

/-- Witness for the amended C5: a directory of three files whose middle
upload fails yields three upload attempts, no response, and exactly the
two successful entries in the registry. -/
theorem c5_push_dir_witness :
    (pushArm (fun _ => true) (fun p => if p == ['b'] then none else some ['1'])
        ⟨Inotify.init, ⟨[]⟩, []⟩
        (.dir ['d'] [.file ['a'], .file ['b'], .file ['c']])).2.uploads =
      ([.file ['a'], .file ['b'], .file ['c']] : List FsEntry).map FsEntry.path ∧
    (pushArm (fun _ => true) (fun p => if p == ['b'] then none else some ['1'])
        ⟨Inotify.init, ⟨[]⟩, []⟩
        (.dir ['d'] [.file ['a'], .file ['b'], .file ['c']])).2.resps = [] ∧
    (pushArm (fun _ => true) (fun p => if p == ['b'] then none else some ['1'])
        ⟨Inotify.init, ⟨[]⟩, []⟩
        (.dir ['d'] [.file ['a'], .file ['b'], .file ['c']])).2.updates = [] ∧
    (pushArm (fun _ => true) (fun p => if p == ['b'] then none else some ['1'])
        ⟨Inotify.init, ⟨[]⟩, []⟩
        (.dir ['d'] [.file ['a'], .file ['b'], .file ['c']])).2.exited = false ∧
    mapValues (pushArm (fun _ => true) (fun p => if p == ['b'] then none else some ['1'])
        ⟨Inotify.init, ⟨[]⟩, []⟩
        (.dir ['d'] [.file ['a'], .file ['b'], .file ['c']])).1.tf.map =
      mapValues (⟨[]⟩ : TrackedFiles).map ++
        ([.file ['a'], .file ['b'], .file ['c']] : List FsEntry).filterMap
          (fun c => ((if c.path == ['b'] then none else some ['1']) :
              Option Str).map (fun url => fmtEntry c.path url)) :=
  c5_push_dir (fun _ => true) (fun p => if p == ['b'] then none else some ['1'])
    ⟨Inotify.init, ⟨[]⟩, []⟩ ['d'] [.file ['a'], .file ['b'], .file ['c']]
    (by decide) (by decide) (by decide) (by decide)

/-- C6 (amended): with a well-formed remote url (the client rejects
malformed urls before contacting the daemon): if the destination is an
existing regular file and `overwrite` is false, the client prints an error
and nothing is sent — no download happens and the filesystem is untouched;
if the destination is NOT an existing regular file, has no extension, and
is not an existing directory, the client prints an error and the Remote
Storage Client is never called (the original claim omitted the "not an
existing regular file" guard: an extensionless existing file with
`overwrite = true` is downloaded, see the counterexample); in every other
case the command is sent, the daemon attempts exactly one download, and a
successful download registers the returned local path against the remote
url. -/
theorem c6_pull_validation (d : DestInfo) (env : Str → Bool) (dl : Str → Str → Option Str)
    (st : OldState) (url dest : Str) (ow : Bool) :
    (d.isFile = true → d.exi = true → ow = false →
      pullPipeline true d env dl st url dest ow = (st, Effects.silent)) ∧
    (d.isFile = false → d.hasExt = false → d.isDir = false →
      pullPipeline true d env dl st url dest ow = (st, Effects.silent)) ∧
    ((d.isFile = true → (d.exi && !ow) = false) →
      (d.isFile = false → (d.hasExt || d.isDir) = true) →
      pullPipeline true d env dl st url dest ow = pullArm env dl st url dest) ∧
    (∀ lp, dl url dest = some lp → env lp = true → ¬ watchedPath st.ino lp → wdBound st →
      (pullArm env dl st url dest).2.downloads = [(url, dest)] ∧
      (pullArm env dl st url dest).2.resps = [] ∧
      fmtEntry lp url ∈ mapValues (pullArm env dl st url dest).1.tf.map) := by
  refine ⟨?_, ?_, ?_, ?_⟩
  · intro h1 h2 h3
    subst h3
    simp [pullPipeline, handle_pull, h1, h2]
  · intro h1 h2 h3
    simp [pullPipeline, handle_pull, h1, h2, h3]
  · intro hA hB
    cases hf : d.isFile with
    | true =>
      have hae := hA hf
      simp [pullPipeline, handle_pull, hf, hae]
    | false =>
      have hor := hB hf
      have hno : (!d.hasExt && !d.isDir) = false := by
        rw [← Bool.not_or, hor]
        rfl
      simp [pullPipeline, handle_pull, hf, hno]
  · intro lp hdl henv hfresh hWf
    have hpa : pullArm env dl st url dest =
        (oldAddPath env st lp url, { Effects.silent with downloads := [(url, dest)] }) := by
      unfold pullArm
      rw [hdl]
    rw [hpa]
    refine ⟨rfl, rfl, ?_⟩
    rw [oldAddPath_fresh env st lp url henv hfresh hWf]
    simp [mapValues]

/-- Witness for the amended C6 at concrete destinations: an existing file
without overwrite is rejected silently; a no-extension non-directory
destination is rejected; an existing file with overwrite proceeds to the
daemon; a successful download registers the local path. -/
theorem c6_pull_validation_witness :
    pullPipeline true ⟨true, true, true, false⟩ (fun _ => true) (fun _ _ => some ['p'])
      ⟨Inotify.init, ⟨[]⟩, []⟩ ['u'] ['q'] false = (⟨Inotify.init, ⟨[]⟩, []⟩, Effects.silent) ∧
    pullPipeline true ⟨false, false, false, false⟩ (fun _ => true) (fun _ _ => some ['p'])
      ⟨Inotify.init, ⟨[]⟩, []⟩ ['u'] ['q'] true = (⟨Inotify.init, ⟨[]⟩, []⟩, Effects.silent) ∧
    pullPipeline true ⟨true, true, true, false⟩ (fun _ => true) (fun _ _ => some ['p'])
      ⟨Inotify.init, ⟨[]⟩, []⟩ ['u'] ['q'] true =
      pullArm (fun _ => true) (fun _ _ => some ['p']) ⟨Inotify.init, ⟨[]⟩, []⟩ ['u'] ['q'] ∧
    (pullArm (fun _ => true) (fun _ _ => some ['p']) ⟨Inotify.init, ⟨[]⟩, []⟩
        ['u'] ['q']).2.downloads = [(['u'], ['q'])] ∧
    fmtEntry ['p'] ['u'] ∈ mapValues (pullArm (fun _ => true) (fun _ _ => some ['p'])
        ⟨Inotify.init, ⟨[]⟩, []⟩ ['u'] ['q']).1.tf.map :=
  ⟨(c6_pull_validation ⟨true, true, true, false⟩ (fun _ => true) (fun _ _ => some ['p'])
      ⟨Inotify.init, ⟨[]⟩, []⟩ ['u'] ['q'] false).1 rfl rfl rfl,
    (c6_pull_validation ⟨false, false, false, false⟩ (fun _ => true) (fun _ _ => some ['p'])
      ⟨Inotify.init, ⟨[]⟩, []⟩ ['u'] ['q'] true).2.1 rfl rfl rfl,
    (c6_pull_validation ⟨true, true, true, false⟩ (fun _ => true) (fun _ _ => some ['p'])
      ⟨Inotify.init, ⟨[]⟩, []⟩ ['u'] ['q'] true).2.2.1 (fun _ => rfl) (by simp),
    ((c6_pull_validation ⟨true, true, true, false⟩ (fun _ => true) (fun _ _ => some ['p'])
      ⟨Inotify.init, ⟨[]⟩, []⟩ ['u'] ['q'] true).2.2.2 ['p'] rfl rfl (by decide) (by decide)).1,
    ((c6_pull_validation ⟨true, true, true, false⟩ (fun _ => true) (fun _ _ => some ['p'])
      ⟨Inotify.init, ⟨[]⟩, []⟩ ['u'] ['q'] true).2.2.2 ['p'] rfl rfl (by decide) (by decide)).2.2⟩
